import Mathlib

/-!
Verification development for a recipe CRUD backend (Django / Django REST
Framework application).  The embedding models the core logic of the
repository:

* `core/models.py` — the `User`, `Recipe`, `Tag`, `Ingrediant` tables and
  `UserManager.create_user`;
* `recipe/serializers.py` — `RecipeSerializer.update` with its
  `_get_or_create_tags` / `_get_or_create_ingrediants` reconciliation;
* `recipe/views.py` — `RecipeViewSet.get_queryset` (comma-separated ID
  filters) and `BaseRecipeAttrViewSet.get_queryset` (`assigned_only`).

Database tables are embedded as Lean lists of records; the many-to-many
link sets of a recipe are carried on the recipe record as lists of row
ids.  Python / framework primitives that the source calls (`int()`,
`str.strip`, `str.split`, `get_or_create`, `normalize_email`, query-set
filtering with SQL joins, `order_by`, `distinct`) are embedded as
executable Lean functions on character lists so that everything reduces.
-/

/-- Python exceptions that the modelled code can raise.  `valueError`
carries the offending string (raised by `int()` on a non-numeric literal
and by `create_user` on an empty email); `multipleObjectsReturned` is
Django's error when `get()` inside `get_or_create` matches several rows. -/
inductive PyExn where
  | valueError (arg : String)
  | multipleObjectsReturned
deriving Repr, DecidableEq

/-- Django REST Framework's exception handler turns only `APIException`
subclasses (and `Http404` / `PermissionDenied`) into client-error (4xx)
responses; any other exception — in particular a bare `ValueError` or
`MultipleObjectsReturned` — propagates and surfaces as a server fault
(HTTP 500).  Neither of the exceptions the modelled code can raise is an
`APIException`. -/
def PyExn.isClientError : PyExn → Bool
  | .valueError _ => false
  | .multipleObjectsReturned => false

instance {ε α : Type} [DecidableEq ε] [DecidableEq α] : DecidableEq (Except ε α) := fun a b =>
  match a, b with
  | .ok x, .ok y => if h : x = y then .isTrue (by rw [h]) else .isFalse (by simp [h])
  | .error e, .error f => if h : e = f then .isTrue (by rw [h]) else .isFalse (by simp [h])
  | .ok _, .error _ => .isFalse (by simp)
  | .error _, .ok _ => .isFalse (by simp)

/-- Characters removed by Python's `str.strip()` (ASCII whitespace). -/
def pySpace (c : Char) : Bool :=
  c = ' ' || c = '\t' || c = '\n' || c = '\r' || c = '\x0b' || c = '\x0c'

/-- Python `str.strip()` on a character list: drop leading and trailing
whitespace. -/
def pyStripChars (l : List Char) : List Char :=
  ((l.dropWhile pySpace).reverse.dropWhile pySpace).reverse

/-- Python `str.split(sep)` for a one-character separator: splitting the
empty string gives `[""]`, and consecutive separators give empty
groups. -/
def pySplitOn (sep : Char) : List Char → List (List Char)
  | [] => [[]]
  | c :: cs =>
    match pySplitOn sep cs with
    | [] => [[c]]
    | g :: gs => if c = sep then [] :: g :: gs else (c :: g) :: gs

/-- Decimal digit test for the model of `int()`. -/
def pyDigit (c : Char) : Bool := 48 ≤ c.toNat && c.toNat ≤ 57

/-- Value of a digit string, most significant digit first. -/
def pyDigitsVal (l : List Char) : Nat :=
  l.foldl (fun acc c => acc * 10 + (c.toNat - 48)) 0

/-- A (sign-stripped) literal is accepted by `int()` iff it is a
non-empty run of decimal digits. -/
def pyDigitsOk (l : List Char) : Bool := !l.isEmpty && l.all pyDigit

/-- Python's `int()` constructor on a character list: strip whitespace,
allow one leading sign, then require a non-empty digit run; anything
else raises `ValueError`. -/
def pyIntChars (orig : List Char) : Except PyExn Int :=
  match pyStripChars orig with
  | '-' :: rest =>
    if pyDigitsOk rest then .ok (-(pyDigitsVal rest : Int))
    else .error (.valueError (String.mk orig))
  | '+' :: rest =>
    if pyDigitsOk rest then .ok ((pyDigitsVal rest : Int))
    else .error (.valueError (String.mk orig))
  | t =>
    if pyDigitsOk t then .ok ((pyDigitsVal t : Int))
    else .error (.valueError (String.mk orig))

/-- Python's `int()` on a string. -/
def pyInt (s : String) : Except PyExn Int := pyIntChars s.data

/-- Python truthiness of an optional string (`query_params.get` returns
`None` when the parameter is absent): `None` and the empty string are
falsy, every other string is truthy. -/
def pyTruthyStr : Option String → Bool
  | none => false
  | some s => !s.data.isEmpty

/-- One row of the `Tag` table (and, with the same shape, of the
`Ingrediant` table): a primary key, the owning user's id and a name. -/
structure AttrRow where
  id : Nat
  user : Nat
  name : String
deriving Repr, DecidableEq

/-- A `Tag` / `Ingrediant` table: its rows together with the primary key
the next created row receives. -/
structure AttrTable where
  rows : List AttrRow
  nextId : Nat
deriving Repr, DecidableEq

/-- The rows a Django filter `objects.filter(user=user, name=name)`
returns. -/
def AttrTable.matching (tbl : AttrTable) (user : Nat) (name : String) : List AttrRow :=
  tbl.rows.filter (fun t => decide (t.user = user ∧ t.name = name))

/-- Django's `objects.get_or_create(user=user, name=name)`: reuse the
unique matching row, create a fresh row when none matches, and raise
`MultipleObjectsReturned` when several match (there is no uniqueness
constraint on `(user, name)` in the schema). -/
def getOrCreate (tbl : AttrTable) (user : Nat) (name : String) :
    Except PyExn (AttrTable × AttrRow) :=
  match tbl.matching user name with
  | [] =>
    let row : AttrRow := ⟨tbl.nextId, user, name⟩
    .ok (⟨tbl.rows ++ [row], tbl.nextId + 1⟩, row)
  | [t] => .ok (tbl, t)
  | _ :: _ :: _ => .error .multipleObjectsReturned

/-- Django's many-to-many `add`: linking an already linked row is a
no-op. -/
def m2mAdd (links : List Nat) (i : Nat) : List Nat :=
  if i ∈ links then links else links ++ [i]

/-- The loop bodies of `RecipeSerializer._get_or_create_tags` and
`RecipeSerializer._get_or_create_ingrediants` (the two methods are
textually identical up to the table they touch): for each name in order,
get-or-create a row for `(user, name)` and add its id to the recipe's
link set. -/
def getOrCreateMany (tbl : AttrTable) (user : Nat) (names : List String) (links : List Nat) :
    Except PyExn (AttrTable × List Nat) :=
  match names with
  | [] => .ok (tbl, links)
  | n :: rest =>
    match getOrCreate tbl user n with
    | .error e => .error e
    | .ok (tbl', row) => getOrCreateMany tbl' user rest (m2mAdd links row.id)

/-- One row of the `Recipe` table.  The `price` column is a fixed-point
decimal with two places; it is embedded as an integer number of
hundredths.  The two many-to-many link sets (`tags`, `ingrediants`) are
carried on the record as the lists of linked row ids, in link order. -/
structure Recipe where
  id : Nat
  user : Nat
  title : String
  description : String
  time_minutes : Int
  price : Int
  link : String
  tags : List Nat
  ingrediants : List Nat
deriving Repr, DecidableEq

/-- The mutable store the recipe serializer touches: the `Tag` table and
the `Ingrediant` table. -/
structure DB where
  tagTbl : AttrTable
  ingTbl : AttrTable
deriving Repr, DecidableEq

/-- The `validated_data` dictionary `RecipeSerializer.update` receives:
each writable field is present or absent (on a `PATCH` only the supplied
fields are present).  Nested tag / ingredient payloads are lists of
names.  `id` and `user` cannot occur here: they are declared in
`read_only_fields` of `RecipeSerializer.Meta`, so validation never puts
them into `validated_data`. -/
structure ValidatedData where
  title : Option String := none
  description : Option String := none
  time_minutes : Option Int := none
  price : Option Int := none
  link : Option String := none
  tags : Option (List String) := none
  ingrediants : Option (List String) := none
deriving Repr, DecidableEq

/-- A raw update payload as sent by a client, before serializer
validation: it may additionally carry `user` and `id` values. -/
structure UpdatePayload where
  user : Option Nat := none
  id : Option Nat := none
  title : Option String := none
  description : Option String := none
  time_minutes : Option Int := none
  price : Option Int := none
  link : Option String := none
  tags : Option (List String) := none
  ingrediants : Option (List String) := none
deriving Repr, DecidableEq

/-- Serializer validation step: `read_only_fields = ['id', 'user']` (and
the `ReadOnlyField` declaration for `user`) make the framework drop the
`user` and `id` entries of the payload; every other field is passed
through. -/
def toValidatedData (p : UpdatePayload) : ValidatedData :=
  { title := p.title, description := p.description,
    time_minutes := p.time_minutes, price := p.price, link := p.link,
    tags := p.tags, ingrediants := p.ingrediants }

/-- The `setattr` loop at the end of `RecipeSerializer.update`: every
field remaining in `validated_data` is assigned onto the instance. -/
def applyAttrs (r : Recipe) (vd : ValidatedData) : Recipe :=
  { r with
    title := vd.title.getD r.title,
    description := vd.description.getD r.description,
    time_minutes := vd.time_minutes.getD r.time_minutes,
    price := vd.price.getD r.price,
    link := vd.link.getD r.link }

/-- The tag branch of `RecipeSerializer.update`: `tags` was popped with
default `None`; when it is present the instance's tag links are cleared
and the new list is reconciled, otherwise nothing happens. -/
def updateTagsPhase (db : DB) (user : Nat) (r : Recipe) (tags : Option (List String)) :
    Except PyExn (DB × Recipe) :=
  match tags with
  | none => .ok (db, r)
  | some names =>
    match getOrCreateMany db.tagTbl user names [] with
    | .error e => .error e
    | .ok (tbl', links) => .ok ({ db with tagTbl := tbl' }, { r with tags := links })

/-- The ingredient branch of `RecipeSerializer.update`, identical to the
tag branch on the other table. -/
def updateIngsPhase (db : DB) (user : Nat) (r : Recipe) (ingrediants : Option (List String)) :
    Except PyExn (DB × Recipe) :=
  match ingrediants with
  | none => .ok (db, r)
  | some names =>
    match getOrCreateMany db.ingTbl user names [] with
    | .error e => .error e
    | .ok (tbl', links) => .ok ({ db with ingTbl := tbl' }, { r with ingrediants := links })

/-- `RecipeSerializer.update(instance, validated_data)`: pop `tags` and
`ingrediants` (default `None`), clear-and-reconcile each present one,
assign the remaining fields, save, and return the instance. -/
def recipeUpdate (db : DB) (user : Nat) (inst : Recipe) (vd : ValidatedData) :
    Except PyExn (DB × Recipe) :=
  match updateTagsPhase db user inst vd.tags with
  | .error e => .error e
  | .ok (db1, r1) =>
    match updateIngsPhase db1 user r1 vd.ingrediants with
    | .error e => .error e
    | .ok (db2, r2) => .ok (db2, applyAttrs r2 vd)

/-- `RecipeViewSet._params_to_list_of_int` applied to the groups of one
comma-separated parameter: `int(str_id.strip())` on each group in order,
the first `ValueError` aborting the list comprehension. -/
def intTokens : List (List Char) → Except PyExn (List Int)
  | [] => .ok []
  | tok :: rest =>
    match pyIntChars (pyStripChars tok) with
    | .error e => .error e
    | .ok n =>
      match intTokens rest with
      | .error e => .error e
      | .ok ns => .ok (n :: ns)

/-- `RecipeViewSet._params_to_list_of_int(params)`:
`[int(str_id.strip()) for str_id in params.split(',')]`. -/
def paramsToListOfInt (params : String) : Except PyExn (List Int) :=
  intTokens (pySplitOn ',' params.data)

/-- The SQL join produced by `queryset.filter(tags__id__in=ids)` (or the
same on `ingrediants`): each recipe appears once per linked id that lies
in `ids`, so a recipe matching several ids is duplicated until the final
`distinct()`. -/
def joinIdFilter (qs : List Recipe) (g : Recipe → List Nat) (ids : List Int) : List Recipe :=
  qs.flatMap (fun r => ((g r).filter (fun t : Nat => decide ((t : Int) ∈ ids))).map (fun _ => r))

/-- One conditional filter step of `RecipeViewSet.get_queryset`: when the
parameter is truthy, parse it and apply the id join filter, otherwise
leave the queryset unchanged. -/
def applyIdFilter (qs : List Recipe) (g : Recipe → List Nat) (p : Option String) :
    Except PyExn (List Recipe) :=
  if pyTruthyStr p then
    match paramsToListOfInt (p.getD "") with
    | .error e => .error e
    | .ok ids => .ok (joinIdFilter qs g ids)
  else .ok qs

/-- `order_by('-id').distinct()` on a recipe queryset: collapse duplicate
rows and sort by descending primary key. -/
def recipeGeId (a b : Recipe) : Prop := b.id ≤ a.id

instance : DecidableRel recipeGeId := fun a b => Nat.decLe b.id a.id

instance : IsTotal Recipe recipeGeId := ⟨fun a b => Or.symm (Nat.le_total a.id b.id)⟩

instance : IsTrans Recipe recipeGeId := ⟨fun _ _ _ h1 h2 => Nat.le_trans h2 h1⟩

/-- The terminal `order_by('-id').distinct()` of
`RecipeViewSet.get_queryset`. -/
def orderByIdDescDistinct (qs : List Recipe) : List Recipe :=
  List.insertionSort recipeGeId qs.dedup

/-- `RecipeViewSet.get_queryset`: read the `tags` and `ingrediants`
query parameters; a truthy parameter is parsed with
`_params_to_list_of_int` and applied as an id join filter; finally the
queryset is restricted to the requesting user's rows, ordered by
descending id and deduplicated. -/
def getQuerysetRecipes (recipes : List Recipe) (user : Nat) (tagsP ingsP : Option String) :
    Except PyExn (List Recipe) :=
  match applyIdFilter recipes Recipe.tags tagsP with
  | .error e => .error e
  | .ok qs1 =>
    match applyIdFilter qs1 Recipe.ingrediants ingsP with
    | .error e => .error e
    | .ok qs2 => .ok (orderByIdDescDistinct (qs2.filter (fun r => decide (r.user = user))))

/-- Lexicographic (code-point) comparison of strings as character lists,
embedding the database collation used by `order_by('name')`. -/
def charListLe : List Char → List Char → Bool
  | [], _ => true
  | _ :: _, [] => false
  | a :: as, b :: bs =>
    if a.toNat < b.toNat then true
    else if b.toNat < a.toNat then false
    else charListLe as bs

theorem charListLe_total (x : List Char) :
    ∀ y, charListLe x y = true ∨ charListLe y x = true := by
  induction x with
  | nil => intro y; exact Or.inl rfl
  | cons a as ih =>
    intro y
    cases y with
    | nil => exact Or.inr rfl
    | cons b bs =>
      simp only [charListLe]
      rcases Nat.lt_trichotomy a.toNat b.toNat with h | h | h
      · left; simp [h]
      · have h2 := ih bs
        simp [h, Nat.lt_irrefl]
        exact h2
      · right; simp [h, Nat.lt_asymm h]

theorem charListLe_trans :
    ∀ (x y z : List Char), charListLe x y = true → charListLe y z = true →
      charListLe x z = true
  | [], _, _, _, _ => rfl
  | _ :: _, [], _, h1, _ => absurd h1 (by simp [charListLe])
  | _ :: _, _ :: _, [], _, h2 => absurd h2 (by simp [charListLe])
  | a :: as, b :: bs, c :: cs, h1, h2 => by
    simp only [charListLe] at h1 h2 ⊢
    split_ifs at h1 h2 ⊢ <;>
      first
        | rfl
        | omega
        | exact charListLe_trans as bs cs h1 h2

/-- The ordering `order_by('-name')` sorts by: descending name. -/
def attrGeName (a b : AttrRow) : Prop := charListLe b.name.data a.name.data = true

instance : DecidableRel attrGeName := fun a b => Bool.decEq (charListLe b.name.data a.name.data) true

instance : IsTotal AttrRow attrGeName := ⟨fun a b => Or.symm (charListLe_total a.name.data b.name.data)⟩

instance : IsTrans AttrRow attrGeName :=
  ⟨fun _ _ _ h1 h2 => charListLe_trans _ _ _ h2 h1⟩

/-- Parsing of the `assigned_only` query parameter in
`BaseRecipeAttrViewSet.get_queryset`:
`bool(int(self.request.query_params.get('assigned_only', 0)))` — when the
parameter is absent, `get` returns the integer default `0`; when it is
present, its string value goes through `int()` (raising `ValueError` on a
non-integer) and Python's `bool` is true exactly on nonzero integers. -/
def parseAssignedOnly : Option String → Except PyExn Bool
  | none => .ok false
  | some s =>
    match pyInt s with
    | .error e => .error e
    | .ok n => .ok (!(n == 0))

/-- The SQL join produced by `queryset.filter(recipe__isnull=False)`:
each tag / ingredient row appears once per recipe it is linked to, so a
row linked to several recipes is duplicated until the final
`distinct()`. -/
def joinAssigned (rows : List AttrRow) (recipes : List Recipe) (g : Recipe → List Nat) :
    List AttrRow :=
  rows.flatMap (fun t => ((recipes.filter (fun r => decide (t.id ∈ g r)))).map (fun _ => t))

/-- `BaseRecipeAttrViewSet.get_queryset` (shared by `TagViewSet` with
`g = Recipe.tags` and `IngrediantsViewSet` with `g = Recipe.ingrediants`):
parse `assigned_only`; when true, restrict to rows linked to at least one
recipe; then restrict to the requesting user's rows, order by descending
name and deduplicate. -/
def attrQueryset (rows : List AttrRow) (recipes : List Recipe) (g : Recipe → List Nat)
    (user : Nat) (p : Option String) : Except PyExn (List AttrRow) :=
  match parseAssignedOnly p with
  | .error e => .error e
  | .ok assignedOnly =>
    .ok (List.insertionSort attrGeName
      (((if assignedOnly then joinAssigned rows recipes g else rows).filter
        (fun t => decide (t.user = user))).dedup))

/-- One row of the `User` table.  `set_password` hashes the credential
before storage; the hash itself is irrelevant here, so the credential is
kept opaquely. -/
structure PyUser where
  email : String
  name : String := ""
  password : Option String := none
  is_active : Bool := true
  is_staff : Bool := false
  is_superuser : Bool := false
deriving Repr, DecidableEq

/-- Split a character list at its last `'@'`, if any: `some (l, d)` with
the characters before (`l`) and after (`d`) that `'@'`.  This is
`rsplit('@', 1)` restricted to the successful two-part case. -/
def lastAtSplit : List Char → Option (List Char × List Char)
  | [] => none
  | c :: cs =>
    match lastAtSplit cs with
    | some (l, d) => some (c :: l, d)
    | none => if c = '@' then some ([], cs) else none

/-- Django's `BaseUserManager.normalize_email` (the framework factory
helper `create_user` calls): strip the address, split at the last `'@'`
and lowercase the domain part; an address with no `'@'` is returned
unchanged. -/
def normalize_email (email : String) : String :=
  match lastAtSplit (pyStripChars email.data) with
  | none => email
  | some (l, d) => String.mk (l ++ '@' :: d.map Char.toLower)

/-- `UserManager.create_user`: reject a falsy (empty) email with
`ValueError` before anything is stored; otherwise store and return a new
user whose email is normalized and whose credential went through
`set_password`. -/
def create_user (db : List PyUser) (email : String) (password : Option String) :
    Except PyExn (List PyUser × PyUser) :=
  if email.data.isEmpty then .error (.valueError "User Must have an email address")
  else
    let u : PyUser := { email := normalize_email email, password := password }
    .ok (db ++ [u], u)

theorem mem_joinIdFilter {qs : List Recipe} {g : Recipe → List Nat} {ids : List Int}
    {r : Recipe} :
    r ∈ joinIdFilter qs g ids ↔ r ∈ qs ∧ ∃ t : Nat, t ∈ g r ∧ (t : Int) ∈ ids := by
  simp only [joinIdFilter, List.mem_flatMap, List.mem_map, List.mem_filter,
    decide_eq_true_eq]
  constructor
  · rintro ⟨b, hb, t, ⟨ht, hid⟩, rfl⟩
    exact ⟨hb, t, ht, hid⟩
  · rintro ⟨hr, t, ht, hid⟩
    exact ⟨r, hr, t, ⟨ht, hid⟩, rfl⟩

theorem mem_joinAssigned {rows : List AttrRow} {recipes : List Recipe}
    {g : Recipe → List Nat} {t : AttrRow} :
    t ∈ joinAssigned rows recipes g ↔ t ∈ rows ∧ ∃ r ∈ recipes, t.id ∈ g r := by
  simp only [joinAssigned, List.mem_flatMap, List.mem_map, List.mem_filter,
    decide_eq_true_eq]
  constructor
  · rintro ⟨b, hb, r, ⟨hr, hid⟩, rfl⟩
    exact ⟨hb, r, hr, hid⟩
  · rintro ⟨hm, r, hr, hid⟩
    exact ⟨t, hm, r, ⟨hr, hid⟩, rfl⟩

theorem mem_orderByIdDescDistinct {l : List Recipe} {r : Recipe} :
    r ∈ orderByIdDescDistinct l ↔ r ∈ l :=
  ((List.perm_insertionSort recipeGeId l.dedup).mem_iff).trans List.mem_dedup

theorem nodup_orderByIdDescDistinct (l : List Recipe) : (orderByIdDescDistinct l).Nodup :=
  (List.perm_insertionSort recipeGeId l.dedup).symm.nodup (List.nodup_dedup l)

theorem sorted_orderByIdDescDistinct (l : List Recipe) :
    List.Sorted recipeGeId (orderByIdDescDistinct l) :=
  List.sorted_insertionSort recipeGeId l.dedup

theorem getOrCreate_ok_facts {tbl tbl2 : AttrTable} {u : Nat} {n : String} {row : AttrRow}
    (h : getOrCreate tbl u n = .ok (tbl2, row)) :
    row ∈ tbl2.rows ∧ row.user = u ∧ row.name = n ∧ ∀ t ∈ tbl.rows, t ∈ tbl2.rows := by
  unfold getOrCreate at h
  cases hm : tbl.matching u n with
  | nil =>
    rw [hm] at h
    simp only [Except.ok.injEq, Prod.mk.injEq] at h
    obtain ⟨h2, h3⟩ := h
    subst h2; subst h3
    refine ⟨?_, rfl, rfl, ?_⟩
    · simp
    · intro t ht; simp [ht]
  | cons a rest =>
    cases rest with
    | nil =>
      rw [hm] at h
      simp only [Except.ok.injEq, Prod.mk.injEq] at h
      obtain ⟨h2, h3⟩ := h
      subst h2
      have ha : row ∈ tbl.matching u n := by
        rw [hm, h3]
        exact List.mem_singleton_self row
      have hf := List.mem_filter.mp ha
      simp only [decide_eq_true_eq] at hf
      exact ⟨hf.1, hf.2.1, hf.2.2, fun t ht => ht⟩
    | cons b rest2 =>
      rw [hm] at h
      simp at h

theorem getOrCreateMany_mono {u : Nat} :
    ∀ {names : List String} {tbl tbl' : AttrTable} {links links' : List Nat},
      getOrCreateMany tbl u names links = .ok (tbl', links') →
      ∀ t ∈ tbl.rows, t ∈ tbl'.rows := by
  intro names
  induction names with
  | nil =>
    intro tbl tbl' links links' h t ht
    simp only [getOrCreateMany, Except.ok.injEq, Prod.mk.injEq] at h
    rw [← h.1]
    exact ht
  | cons n rest ih =>
    intro tbl tbl' links links' h t ht
    unfold getOrCreateMany at h
    cases hg : getOrCreate tbl u n with
    | error e => rw [hg] at h; simp at h
    | ok p =>
      obtain ⟨tbl2, row⟩ := p
      rw [hg] at h
      exact ih h t ((getOrCreate_ok_facts hg).2.2.2 t ht)

theorem getOrCreateMany_links_user {u : Nat} :
    ∀ {names : List String} {tbl tbl' : AttrTable} {links links' : List Nat},
      getOrCreateMany tbl u names links = .ok (tbl', links') →
      ∀ i ∈ links', i ∈ links ∨ ∃ t, t ∈ tbl'.rows ∧ t.id = i ∧ t.user = u := by
  intro names
  induction names with
  | nil =>
    intro tbl tbl' links links' h i hi
    simp only [getOrCreateMany, Except.ok.injEq, Prod.mk.injEq] at h
    rw [← h.2] at hi
    exact Or.inl hi
  | cons n rest ih =>
    intro tbl tbl' links links' h i hi
    unfold getOrCreateMany at h
    cases hg : getOrCreate tbl u n with
    | error e => rw [hg] at h; simp at h
    | ok p =>
      obtain ⟨tbl2, row⟩ := p
      rw [hg] at h
      rcases ih h i hi with hmem | hex
      · unfold m2mAdd at hmem
        by_cases hc : row.id ∈ links
        · rw [if_pos hc] at hmem
          exact Or.inl hmem
        · rw [if_neg hc] at hmem
          rcases List.mem_append.mp hmem with hl | hr
          · exact Or.inl hl
          · have hfacts := getOrCreate_ok_facts hg
            have hrow : row ∈ tbl'.rows := getOrCreateMany_mono h row hfacts.1
            have hieq : i = row.id := List.mem_singleton.mp hr
            exact Or.inr ⟨row, hrow, hieq.symm, hfacts.2.1⟩
      · exact Or.inr hex

theorem pyIntChars_error_shape {l : List Char} {e : PyExn}
    (h : pyIntChars l = .error e) : ∃ m, e = .valueError m := by
  unfold pyIntChars at h
  split at h <;> split at h <;> simp at h <;> exact ⟨_, h.symm⟩

theorem intTokens_error_of_mem {toks : List (List Char)} {tok : List Char} {e : PyExn}
    (hmem : tok ∈ toks) (herr : pyIntChars (pyStripChars tok) = .error e) :
    ∃ m, intTokens toks = .error (.valueError m) := by
  induction toks with
  | nil => cases hmem
  | cons t0 rest ih =>
    unfold intTokens
    cases h0 : pyIntChars (pyStripChars t0) with
    | error e0 =>
      obtain ⟨m, hm⟩ := pyIntChars_error_shape h0
      exact ⟨m, by rw [hm]⟩
    | ok n0 =>
      have htok : tok ∈ rest := by
        rcases List.mem_cons.mp hmem with h1 | h1
        · rw [h1] at herr; rw [herr] at h0; cases h0
        · exact h1
      obtain ⟨m, hm⟩ := ih htok
      exact ⟨m, by rw [hm]⟩

theorem lastAtSplit_eq_none {d : List Char} (hd : '@' ∉ d) : lastAtSplit d = none := by
  induction d with
  | nil => rfl
  | cons c cs ih =>
    have hc : c ≠ '@' := fun h => hd (h ▸ List.mem_cons_self c cs)
    have hcs : '@' ∉ cs := fun h => hd (List.mem_cons_of_mem c h)
    simp only [lastAtSplit, ih hcs]
    rw [if_neg hc]

theorem lastAtSplit_append (l : List Char) {d : List Char} (hd : '@' ∉ d) :
    lastAtSplit (l ++ '@' :: d) = some (l, d) := by
  induction l with
  | nil =>
    simp only [List.nil_append, lastAtSplit, lastAtSplit_eq_none hd]
    simp
  | cons c cs ih =>
    simp only [List.cons_append, lastAtSplit, List.append_eq, ih]

theorem applyAttrs_tags (r : Recipe) (vd : ValidatedData) : (applyAttrs r vd).tags = r.tags := rfl

theorem applyAttrs_ingrediants (r : Recipe) (vd : ValidatedData) :
    (applyAttrs r vd).ingrediants = r.ingrediants := rfl

theorem applyAttrs_user (r : Recipe) (vd : ValidatedData) : (applyAttrs r vd).user = r.user := rfl

theorem updateTagsPhase_spec {db db1 : DB} {u : Nat} {r r1 : Recipe}
    {tags : Option (List String)}
    (h : updateTagsPhase db u r tags = .ok (db1, r1)) :
    db1.ingTbl = db.ingTbl ∧ r1.ingrediants = r.ingrediants ∧ r1.user = r.user ∧
    (tags = none → db1 = db ∧ r1 = r) ∧
    (∀ names, tags = some names →
      getOrCreateMany db.tagTbl u names [] = .ok (db1.tagTbl, r1.tags)) := by
  cases tags with
  | none =>
    simp only [updateTagsPhase, Except.ok.injEq, Prod.mk.injEq] at h
    obtain ⟨h1, h2⟩ := h
    subst h1; subst h2
    exact ⟨rfl, rfl, rfl, fun _ => ⟨rfl, rfl⟩, fun names hn => nomatch hn⟩
  | some names =>
    simp only [updateTagsPhase] at h
    cases hg : getOrCreateMany db.tagTbl u names [] with
    | error e => simp [hg] at h
    | ok w =>
      obtain ⟨tbl', links⟩ := w
      simp only [hg, Except.ok.injEq, Prod.mk.injEq] at h
      obtain ⟨h1, h2⟩ := h
      subst h1; subst h2
      refine ⟨rfl, rfl, rfl, ?_, ?_⟩
      · intro hn
        simp at hn
      · intro names2 hn
        obtain rfl : names = names2 := by injection hn
        exact hg

theorem updateIngsPhase_spec {db db1 : DB} {u : Nat} {r r1 : Recipe}
    {ings : Option (List String)}
    (h : updateIngsPhase db u r ings = .ok (db1, r1)) :
    db1.tagTbl = db.tagTbl ∧ r1.tags = r.tags ∧ r1.user = r.user ∧
    (ings = none → db1 = db ∧ r1 = r) ∧
    (∀ names, ings = some names →
      getOrCreateMany db.ingTbl u names [] = .ok (db1.ingTbl, r1.ingrediants)) := by
  cases ings with
  | none =>
    simp only [updateIngsPhase, Except.ok.injEq, Prod.mk.injEq] at h
    obtain ⟨h1, h2⟩ := h
    subst h1; subst h2
    exact ⟨rfl, rfl, rfl, fun _ => ⟨rfl, rfl⟩, fun names hn => nomatch hn⟩
  | some names =>
    simp only [updateIngsPhase] at h
    cases hg : getOrCreateMany db.ingTbl u names [] with
    | error e => simp [hg] at h
    | ok w =>
      obtain ⟨tbl', links⟩ := w
      simp only [hg, Except.ok.injEq, Prod.mk.injEq] at h
      obtain ⟨h1, h2⟩ := h
      subst h1; subst h2
      refine ⟨rfl, rfl, rfl, ?_, ?_⟩
      · intro hn
        simp at hn
      · intro names2 hn
        obtain rfl : names = names2 := by injection hn
        exact hg

/-- C1: on every recipe update, when the `tags` field is present in the
payload the recipe's tag links after the update are exactly the result of
reconciling the new name list against a cleared link set (in particular
the empty list clears all links), and when the field is absent the tag
links are unchanged; the same holds independently for `ingrediants`. -/
theorem claim1_update_replaces_or_preserves_links (db : DB) (u : Nat) (inst : Recipe)
    (vd : ValidatedData) (db' : DB) (r' : Recipe)
    (h : recipeUpdate db u inst vd = .ok (db', r')) :
    (vd.tags = none → r'.tags = inst.tags) ∧
    (∀ names, vd.tags = some names →
      getOrCreateMany db.tagTbl u names [] = .ok (db'.tagTbl, r'.tags)) ∧
    (vd.tags = some [] → r'.tags = []) ∧
    (vd.ingrediants = none → r'.ingrediants = inst.ingrediants) ∧
    (∀ names, vd.ingrediants = some names →
      getOrCreateMany db.ingTbl u names [] = .ok (db'.ingTbl, r'.ingrediants)) ∧
    (vd.ingrediants = some [] → r'.ingrediants = []) := by
  unfold recipeUpdate at h
  cases hT : updateTagsPhase db u inst vd.tags with
  | error e => simp [hT] at h
  | ok p =>
    obtain ⟨db1, r1⟩ := p
    simp only [hT] at h
    cases hI : updateIngsPhase db1 u r1 vd.ingrediants with
    | error e => simp [hI] at h
    | ok q =>
      obtain ⟨db2, r2⟩ := q
      simp only [hI, Except.ok.injEq, Prod.mk.injEq] at h
      obtain ⟨hdb, hr⟩ := h
      subst hdb; subst hr
      obtain ⟨hTi, hTo, hTu, hTnone, hTsome⟩ := updateTagsPhase_spec hT
      obtain ⟨hIt, hIo, hIu, hInone, hIsome⟩ := updateIngsPhase_spec hI
      refine ⟨?_, ?_, ?_, ?_, ?_, ?_⟩
      · intro hn
        obtain ⟨ha, hb⟩ := hTnone hn
        rw [applyAttrs_tags, hIo, hb]
      · intro names hn
        rw [applyAttrs_tags, hIo, hIt]
        exact hTsome names hn
      · intro hn
        have h2 := hTsome [] hn
        simp only [getOrCreateMany, Except.ok.injEq, Prod.mk.injEq] at h2
        rw [applyAttrs_tags, hIo, ← h2.2]
      · intro hn
        obtain ⟨ha, hb⟩ := hInone hn
        rw [applyAttrs_ingrediants, hb, hTo]
      · intro names hn
        rw [applyAttrs_ingrediants]
        rw [← hTi]
        exact hIsome names hn
      · intro hn
        have h2 := hIsome [] hn
        simp only [getOrCreateMany, Except.ok.injEq, Prod.mk.injEq] at h2
        rw [applyAttrs_ingrediants, ← h2.2]

def c1db : DB := ⟨⟨[], 1⟩, ⟨[], 1⟩⟩

def c1inst : Recipe := ⟨1, 1, "t", "", 5, 100, "", [7], [8]⟩

def c1vd : ValidatedData := { tags := some ["A"] }

def c1db2 : DB := ⟨⟨[⟨1, 1, "A"⟩], 2⟩, ⟨[], 1⟩⟩

def c1r2 : Recipe := ⟨1, 1, "t", "", 5, 100, "", [1], [8]⟩

/-- Witness for C1 at a concrete update: the payload carries
`tags = ["A"]` and no `ingrediants` key, so the ingredient links survive
unchanged and the tag links are exactly the reconciliation result. -/
theorem claim1_witness :
    c1r2.ingrediants = c1inst.ingrediants ∧
    getOrCreateMany c1db.tagTbl 1 ["A"] [] = .ok (c1db2.tagTbl, c1r2.tags) := by
  have h := claim1_update_replaces_or_preserves_links c1db 1 c1inst c1vd c1db2 c1r2 (by decide)
  exact ⟨h.2.2.2.1 rfl, h.2.1 ["A"] rfl⟩

/-- C2: reconciling a name whose `(user, name)` row already exists (as
the unique matching row) changes nothing in the table — in particular the
row count — and links exactly that existing row to the recipe. -/
theorem claim2_reconcile_idempotent (tbl : AttrTable) (u : Nat) (n : String)
    (t : AttrRow) (links : List Nat)
    (h : tbl.matching u n = [t]) :
    getOrCreate tbl u n = .ok (tbl, t) ∧
    getOrCreateMany tbl u [n] links = .ok (tbl, m2mAdd links t.id) := by
  have h1 : getOrCreate tbl u n = .ok (tbl, t) := by
    unfold getOrCreate
    rw [h]
  refine ⟨h1, ?_⟩
  unfold getOrCreateMany
  rw [h1]
  rfl

def c2tbl : AttrTable := ⟨[⟨1, 1, "A"⟩], 2⟩

/-- Witness for C2: a table already holding the tag `A` for user 1 is
left unchanged by reconciling `A` again, and the existing row id 1 is
the one linked. -/
theorem claim2_witness :
    getOrCreate c2tbl 1 "A" = .ok (c2tbl, ⟨1, 1, "A"⟩) ∧
    getOrCreateMany c2tbl 1 ["A"] [] = .ok (c2tbl, [1]) :=
  claim2_reconcile_idempotent c2tbl 1 "A" ⟨1, 1, "A"⟩ [] (by decide)

/-- C5: a recipe update never changes the recipe's owner, whatever
`user` value the raw payload carries — serializer validation drops the
read-only `user` field before `update` runs, and `update` itself never
assigns it. -/
theorem claim5_owner_immutable (db : DB) (u : Nat) (inst : Recipe) (p : UpdatePayload)
    (db' : DB) (r' : Recipe)
    (h : recipeUpdate db u inst (toValidatedData p) = .ok (db', r')) :
    r'.user = inst.user := by
  unfold recipeUpdate at h
  cases hT : updateTagsPhase db u inst (toValidatedData p).tags with
  | error e => simp [hT] at h
  | ok w =>
    obtain ⟨db1, r1⟩ := w
    simp only [hT] at h
    cases hI : updateIngsPhase db1 u r1 (toValidatedData p).ingrediants with
    | error e => simp [hI] at h
    | ok q =>
      obtain ⟨db2, r2⟩ := q
      simp only [hI, Except.ok.injEq, Prod.mk.injEq] at h
      obtain ⟨hdb, hr⟩ := h
      subst hdb; subst hr
      rw [applyAttrs_user, (updateIngsPhase_spec hI).2.2.1, (updateTagsPhase_spec hT).2.2.1]

def c5payload : UpdatePayload := { user := some 99, title := some "new" }

def c5r2 : Recipe := ⟨1, 1, "new", "", 5, 100, "", [7], [8]⟩

/-- Witness for C5: a payload trying to set `user := 99` leaves the
owner of the concrete recipe untouched. -/
theorem claim5_witness : c5r2.user = c1inst.user :=
  claim5_owner_immutable c1db 1 c1inst c5payload c1db c5r2 (by decide)

/-- C3: ownership scoping — every recipe the recipe queryset returns
belongs to the requesting user; every tag / ingredient row the attribute
queryset returns belongs to the requesting user; and reconciliation only
ever links rows owned by the requesting user (any link it adds points at
a row of the final table owned by that user). -/
theorem claim3_user_scoped :
    (∀ (recipes : List Recipe) (u : Nat) (tp ip : Option String) (rs : List Recipe),
      getQuerysetRecipes recipes u tp ip = .ok rs → ∀ r ∈ rs, r.user = u) ∧
    (∀ (rows : List AttrRow) (recipes : List Recipe) (g : Recipe → List Nat) (u : Nat)
        (p : Option String) (ts : List AttrRow),
      attrQueryset rows recipes g u p = .ok ts → ∀ t ∈ ts, t.user = u) ∧
    (∀ (tbl : AttrTable) (u : Nat) (names : List String) (links : List Nat)
        (tbl' : AttrTable) (links' : List Nat),
      getOrCreateMany tbl u names links = .ok (tbl', links') →
      ∀ i ∈ links', i ∈ links ∨ ∃ t, t ∈ tbl'.rows ∧ t.id = i ∧ t.user = u) := by
  refine ⟨?_, ?_, ?_⟩
  · intro recipes u tp ip rs h r hr
    unfold getQuerysetRecipes at h
    cases h1 : applyIdFilter recipes Recipe.tags tp with
    | error e => simp [h1] at h
    | ok qs1 =>
      simp only [h1] at h
      cases h2 : applyIdFilter qs1 Recipe.ingrediants ip with
      | error e => simp [h2] at h
      | ok qs2 =>
        simp only [h2, Except.ok.injEq] at h
        subst h
        have hm := mem_orderByIdDescDistinct.mp hr
        have hf := List.mem_filter.mp hm
        simpa using hf.2
  · intro rows recipes g u p ts h t ht
    unfold attrQueryset at h
    cases h1 : parseAssignedOnly p with
    | error e => simp [h1] at h
    | ok b =>
      simp only [h1, Except.ok.injEq] at h
      subst h
      have hm := (List.perm_insertionSort attrGeName _).mem_iff.mp ht
      have hm2 := List.mem_dedup.mp hm
      have hf := List.mem_filter.mp hm2
      simpa using hf.2
  · intro tbl u names links tbl' links' h i hi
    exact getOrCreateMany_links_user h i hi

def c3row : AttrRow := ⟨1, 1, "a"⟩

/-- Witness for C3 at concrete data: a one-recipe queryset, a one-row
tag listing and a one-name reconciliation, all scoped to user 1. -/
theorem claim3_witness :
    (∀ r ∈ ([c1inst] : List Recipe), r.user = 1) ∧
    (∀ t ∈ ([c3row] : List AttrRow), t.user = 1) ∧
    (∀ i ∈ ([1] : List Nat), i ∈ ([] : List Nat) ∨
      ∃ t, t ∈ (⟨[⟨1, 1, "A"⟩], 2⟩ : AttrTable).rows ∧ t.id = i ∧ t.user = 1) :=
  ⟨claim3_user_scoped.1 [c1inst] 1 none none [c1inst] (by decide),
   claim3_user_scoped.2.1 [c3row] [] Recipe.tags 1 none [c3row] (by decide),
   claim3_user_scoped.2.2 ⟨[], 1⟩ 1 ["A"] [] ⟨[⟨1, 1, "A"⟩], 2⟩ [1] (by decide)⟩

/-- C4 counterexample: the recipe-list request with `tags=abc` does fail,
but with a bare `ValueError` — an exception DRF's handler does not map to
a client-error response — so the failure is a server fault, not the
malformed-request (client) error the claim asserts. -/
theorem claim4_counterexample :
    getQuerysetRecipes [] 0 (some "abc") none = .error (.valueError "abc") ∧
    PyExn.isClientError (.valueError "abc") = false := by
  constructor
  · decide
  · rfl

theorem intTokens_error_shape {toks : List (List Char)} {e : PyExn}
    (h : intTokens toks = .error e) : ∃ m, e = .valueError m := by
  induction toks with
  | nil => simp [intTokens] at h
  | cons t0 rest ih =>
    unfold intTokens at h
    cases h0 : pyIntChars (pyStripChars t0) with
    | error e0 =>
      simp only [h0, Except.error.injEq] at h
      obtain ⟨m, hm⟩ := pyIntChars_error_shape h0
      exact ⟨m, by rw [← h, hm]⟩
    | ok n0 =>
      simp only [h0] at h
      cases h1 : intTokens rest with
      | error e1 =>
        simp only [h1, Except.error.injEq] at h
        rw [h] at h1
        exact ih h1
      | ok ns => simp [h1] at h

theorem applyIdFilter_bad_param (qs : List Recipe) (g : Recipe → List Nat) {ts : String}
    {tok : List Char} {e : PyExn}
    (hne : ts.data.isEmpty = false) (hmem : tok ∈ pySplitOn ',' ts.data)
    (herr : pyIntChars (pyStripChars tok) = .error e) :
    ∃ m, applyIdFilter qs g (some ts) = .error (.valueError m) := by
  obtain ⟨m, hm⟩ := intTokens_error_of_mem hmem herr
  refine ⟨m, ?_⟩
  have hparams : paramsToListOfInt ts = .error (.valueError m) := hm
  have htruthy : pyTruthyStr (some ts) = true := by
    simp only [pyTruthyStr, hne]
    rfl
  unfold applyIdFilter
  rw [htruthy]
  simp only [if_true, Option.getD_some, hparams]

theorem applyIdFilter_error_shape {qs : List Recipe} {g : Recipe → List Nat}
    {p : Option String} {e : PyExn}
    (h : applyIdFilter qs g p = .error e) : ∃ m, e = .valueError m := by
  unfold applyIdFilter at h
  by_cases ht : pyTruthyStr p = true
  · rw [ht] at h
    simp only [if_true] at h
    cases hp : paramsToListOfInt (p.getD "") with
    | error e1 =>
      simp only [hp, Except.error.injEq] at h
      have hp2 : intTokens (pySplitOn ',' (p.getD "").data) = .error e1 := hp
      obtain ⟨m, hm⟩ := intTokens_error_shape hp2
      exact ⟨m, by rw [← h, hm]⟩
    | ok ids => simp [hp] at h
  · simp only [Bool.not_eq_true] at ht
    rw [ht] at h
    simp at h

/-- C4 (amended): for every recipe-list request one of whose `tags` or
`ingrediants` parameters is non-empty and contains a token that `int()`
rejects, the request fails with an uncaught `ValueError`, which surfaces
as a server fault (HTTP 500) rather than a client error. -/
theorem claim4_nonint_token_server_fault (recipes : List Recipe) (u : Nat)
    (tp ip : Option String) (ts : String) (tok : List Char) (e : PyExn)
    (hcase : (tp = some ts ∧ ts.data.isEmpty = false ∧ tok ∈ pySplitOn ',' ts.data) ∨
             (ip = some ts ∧ ts.data.isEmpty = false ∧ tok ∈ pySplitOn ',' ts.data))
    (herr : pyIntChars (pyStripChars tok) = .error e) :
    ∃ m, getQuerysetRecipes recipes u tp ip = .error (.valueError m) ∧
      PyExn.isClientError (.valueError m) = false := by
  rcases hcase with ⟨hp, hne, hmem⟩ | ⟨hp, hne, hmem⟩
  · subst hp
    obtain ⟨m, hm⟩ := applyIdFilter_bad_param recipes Recipe.tags hne hmem herr
    refine ⟨m, ?_, rfl⟩
    unfold getQuerysetRecipes
    simp only [hm]
  · subst hp
    cases h1 : applyIdFilter recipes Recipe.tags tp with
    | error e1 =>
      obtain ⟨m, hm⟩ := applyIdFilter_error_shape h1
      refine ⟨m, ?_, rfl⟩
      unfold getQuerysetRecipes
      simp only [h1, hm]
    | ok qs1 =>
      obtain ⟨m, hm⟩ := applyIdFilter_bad_param qs1 Recipe.ingrediants hne hmem herr
      refine ⟨m, ?_, rfl⟩
      unfold getQuerysetRecipes
      simp only [h1, hm]

/-- Witness for the amended C4 at two concrete requests: `tags=abc`
(malformed token in the tags position) and `tags=1&ingrediants=xy`
(clean tags, malformed token in the ingrediants position). -/
theorem claim4_witness :
    (∃ m, getQuerysetRecipes [] 0 (some "abc") none = .error (.valueError m) ∧
      PyExn.isClientError (.valueError m) = false) ∧
    (∃ m, getQuerysetRecipes [] 0 (some "1") (some "xy") = .error (.valueError m) ∧
      PyExn.isClientError (.valueError m) = false) :=
  ⟨claim4_nonint_token_server_fault [] 0 (some "abc") none "abc" "abc".data
      (.valueError "abc") (Or.inl ⟨rfl, by decide, by decide⟩) (by decide),
   claim4_nonint_token_server_fault [] 0 (some "1") (some "xy") "xy" "xy".data
      (.valueError "xy") (Or.inr ⟨rfl, by decide, by decide⟩) (by decide)⟩

/-- C9: a `tags` or `ingrediants` parameter that is present but empty is
falsy in Python, so the view skips that filter entirely: the outcome is
identical to the request without the parameter, and with both parameters
empty the request succeeds. -/
theorem claim9_empty_param_like_absent (recipes : List Recipe) (u : Nat)
    (other : Option String) :
    getQuerysetRecipes recipes u (some "") other = getQuerysetRecipes recipes u none other ∧
    getQuerysetRecipes recipes u other (some "") = getQuerysetRecipes recipes u other none ∧
    ∃ rs, getQuerysetRecipes recipes u (some "") (some "") = .ok rs :=
  ⟨rfl, rfl, ⟨_, rfl⟩⟩

/-- C10: `assigned_only` defaults to false when the parameter is absent;
any value that `int()` parses to a nonzero integer (not only `1`)
enables the assigned-only restriction and a value parsing to `0`
disables it; and the attribute queryset depends on the parameter only
through this parsed boolean. -/
theorem claim10_assigned_only_parsing :
    parseAssignedOnly none = .ok false ∧
    (∀ (s : String) (n : Int), pyInt s = .ok n →
      ((n ≠ 0 → parseAssignedOnly (some s) = .ok true) ∧
       (n = 0 → parseAssignedOnly (some s) = .ok false))) ∧
    (∀ (rows : List AttrRow) (recipes : List Recipe) (g : Recipe → List Nat) (u : Nat)
        (p : Option String) (b : Bool), parseAssignedOnly p = .ok b →
      attrQueryset rows recipes g u p =
        attrQueryset rows recipes g u (if b then some "1" else none)) := by
  refine ⟨rfl, ?_, ?_⟩
  · intro s n h
    constructor
    · intro hne
      simp only [parseAssignedOnly, h]
      simp [hne]
    · intro h0
      simp only [parseAssignedOnly, h]
      simp [h0]
  · intro rows recipes g u p b h
    cases b with
    | true =>
      have h1 : parseAssignedOnly (some "1") = .ok true := by decide
      unfold attrQueryset
      rw [h]
      simp only [if_true, h1]
    | false =>
      unfold attrQueryset
      rw [h]
      simp only [if_false]
      rfl

/-- Witness for C10: `2` and `-1` enable the restriction, `0` disables
it, and a `0`-valued parameter gives the same queryset as no parameter. -/
theorem claim10_witness :
    parseAssignedOnly (some "2") = .ok true ∧
    parseAssignedOnly (some "-1") = .ok true ∧
    parseAssignedOnly (some "0") = .ok false ∧
    attrQueryset [c3row] [] Recipe.tags 1 (some "0") =
      attrQueryset [c3row] [] Recipe.tags 1 none :=
  ⟨(claim10_assigned_only_parsing.2.1 "2" 2 (by decide)).1 (by decide),
   (claim10_assigned_only_parsing.2.1 "-1" (-1) (by decide)).1 (by decide),
   (claim10_assigned_only_parsing.2.1 "0" 0 (by decide)).2 rfl,
   claim10_assigned_only_parsing.2.2 [c3row] [] Recipe.tags 1 (some "0") false (by decide)⟩

/-- C6: a recipe-list request carrying both a (well-formed, non-empty)
tag ID filter and an ingredient ID filter returns exactly the requesting
user's recipes linked to at least one tag in the first set and at least
one ingredient in the second (the intersection of the two filtered
sets), without duplicates, ordered by descending primary key. -/
theorem claim6_combined_filters (recipes : List Recipe) (u : Nat) (ts is2 : String)
    (tagIds ingIds : List Int) (rs : List Recipe)
    (hts : ts.data.isEmpty = false) (his : is2.data.isEmpty = false)
    (hpt : paramsToListOfInt ts = .ok tagIds) (hpi : paramsToListOfInt is2 = .ok ingIds)
    (h : getQuerysetRecipes recipes u (some ts) (some is2) = .ok rs) :
    (∀ r : Recipe, r ∈ rs ↔ r ∈ recipes ∧ r.user = u ∧
      (∃ t : Nat, t ∈ r.tags ∧ (t : Int) ∈ tagIds) ∧
      (∃ t : Nat, t ∈ r.ingrediants ∧ (t : Int) ∈ ingIds)) ∧
    rs.Nodup ∧ List.Sorted recipeGeId rs := by
  have htr : pyTruthyStr (some ts) = true := by
    simp only [pyTruthyStr, hts]
    rfl
  have hir : pyTruthyStr (some is2) = true := by
    simp only [pyTruthyStr, his]
    rfl
  unfold getQuerysetRecipes applyIdFilter at h
  rw [htr, hir] at h
  simp only [if_true, Option.getD_some, hpt, hpi, Except.ok.injEq] at h
  subst h
  refine ⟨?_, nodup_orderByIdDescDistinct _, sorted_orderByIdDescDistinct _⟩
  intro r
  rw [mem_orderByIdDescDistinct, List.mem_filter, mem_joinIdFilter, mem_joinIdFilter]
  simp only [decide_eq_true_eq]
  tauto

def c6r1 : Recipe := ⟨1, 1, "r1", "", 5, 100, "", [1], [10]⟩

def c6r2 : Recipe := ⟨2, 1, "r2", "", 5, 100, "", [2], [10]⟩

def c6r3 : Recipe := ⟨3, 1, "r3", "", 5, 100, "", [], []⟩

/-- Witness for C6: filtering `tags=1,2` and `ingrediants=10` over three
recipes returns the two matching ones, newest first. -/
theorem claim6_witness :
    (∀ r : Recipe, r ∈ ([c6r2, c6r1] : List Recipe) ↔
      r ∈ [c6r1, c6r2, c6r3] ∧ r.user = 1 ∧
      (∃ t : Nat, t ∈ r.tags ∧ (t : Int) ∈ [(1 : Int), 2]) ∧
      (∃ t : Nat, t ∈ r.ingrediants ∧ (t : Int) ∈ [(10 : Int)])) ∧
    ([c6r2, c6r1] : List Recipe).Nodup ∧ List.Sorted recipeGeId [c6r2, c6r1] :=
  claim6_combined_filters [c6r1, c6r2, c6r3] 1 "1,2" "10" [1, 2] [10] [c6r2, c6r1]
    (by decide) (by decide) (by decide) (by decide) (by decide)

/-- C7: a tag / ingredient list request with `assigned_only` parsed as
true returns exactly the requesting user's rows linked to at least one
recipe, each exactly once even when linked to several recipes, ordered
by descending name. -/
theorem claim7_assigned_only_listing (rows : List AttrRow) (recipes : List Recipe)
    (g : Recipe → List Nat) (u : Nat) (p : Option String) (ts : List AttrRow)
    (hp : parseAssignedOnly p = .ok true)
    (h : attrQueryset rows recipes g u p = .ok ts) :
    (∀ t : AttrRow, t ∈ ts ↔ t ∈ rows ∧ t.user = u ∧ ∃ r ∈ recipes, t.id ∈ g r) ∧
    ts.Nodup ∧ List.Sorted attrGeName ts := by
  unfold attrQueryset at h
  simp only [hp, if_true, Except.ok.injEq] at h
  subst h
  refine ⟨?_, ?_, ?_⟩
  · intro t
    rw [(List.perm_insertionSort attrGeName _).mem_iff, List.mem_dedup, List.mem_filter,
      mem_joinAssigned]
    simp only [decide_eq_true_eq]
    tauto
  · exact (List.perm_insertionSort attrGeName _).symm.nodup (List.nodup_dedup _)
  · exact List.sorted_insertionSort attrGeName _

def c7r1 : Recipe := ⟨1, 1, "r1", "", 5, 100, "", [1], []⟩

def c7r2 : Recipe := ⟨2, 1, "r2", "", 5, 100, "", [1], []⟩

/-- Witness for C7: the tag with id 1 is shared by two recipes and is
returned exactly once under `assigned_only=1`; the unassigned tag with
id 2 is excluded. -/
theorem claim7_witness :
    (∀ t : AttrRow, t ∈ ([c3row] : List AttrRow) ↔
      t ∈ [c3row, ⟨2, 1, "b"⟩] ∧ t.user = 1 ∧ ∃ r ∈ [c7r1, c7r2], t.id ∈ r.tags) ∧
    ([c3row] : List AttrRow).Nodup ∧ List.Sorted attrGeName [c3row] :=
  claim7_assigned_only_listing [c3row, ⟨2, 1, "b"⟩] [c7r1, c7r2] Recipe.tags 1
    (some "1") [c3row] (by decide) (by decide)

/-- C8: `create_user` stores the email with the domain part (after the
last `'@'`) lowercased and the local part preserved, and rejects an
empty email with a `ValueError` before storing anything. -/
theorem claim8_email_normalization (db : List PyUser) (pw : Option String) (l d : List Char)
    (hstrip : pyStripChars (l ++ '@' :: d) = l ++ '@' :: d)
    (hd : '@' ∉ d) :
    create_user db (String.mk (l ++ '@' :: d)) pw =
      .ok (db ++ [{ email := String.mk (l ++ '@' :: d.map Char.toLower), password := pw }],
           { email := String.mk (l ++ '@' :: d.map Char.toLower), password := pw }) ∧
    create_user db "" pw = .error (.valueError "User Must have an email address") := by
  constructor
  · have hne : (l ++ '@' :: d).isEmpty = false := by
      cases l <;> rfl
    have hnorm : normalize_email (String.mk (l ++ '@' :: d)) =
        String.mk (l ++ '@' :: d.map Char.toLower) := by
      unfold normalize_email
      show (match lastAtSplit (pyStripChars (l ++ '@' :: d)) with
        | none => String.mk (l ++ '@' :: d)
        | some (a, b) => String.mk (a ++ '@' :: b.map Char.toLower)) = _
      rw [hstrip, lastAtSplit_append l hd]
    unfold create_user
    show (if (l ++ '@' :: d).isEmpty then _ else _) = _
    rw [hne, if_neg (by simp), hnorm]
  · rfl

/-- Witness for C8 at the spec's concrete example: creating a user with
`Test2@Example.com` stores `Test2@example.com`. -/
theorem claim8_witness :
    create_user [] (String.mk ("Test2".data ++ '@' :: "Example.com".data)) none =
      .ok ([{ email := String.mk ("Test2".data ++ '@' :: "Example.com".data.map Char.toLower),
              password := none }],
           { email := String.mk ("Test2".data ++ '@' :: "Example.com".data.map Char.toLower),
             password := none }) ∧
    create_user [] "" none = .error (.valueError "User Must have an email address") ∧
    String.mk ("Test2".data ++ '@' :: "Example.com".data.map Char.toLower) =
      "Test2@example.com" :=
  ⟨(claim8_email_normalization [] none "Test2".data "Example.com".data
      (by decide) (by decide)).1,
   (claim8_email_normalization [] none "Test2".data "Example.com".data
      (by decide) (by decide)).2,
   by decide⟩
